import Mathlib

/-!
Verification of the doggy-daycare status-overlay engine.

The definitions below are a shallow embedding of the JavaScript source:
the DogStatusContext overlay store, the DogList page (debounced search,
roster fetch, filter pipeline) and the DogDetails page (effective status,
toggle, prev/next navigation).  JS objects keyed by chip number are
modelled as association lists where the most recent binding wins, JS
`Array.prototype.findIndex` is modelled with its -1-on-miss integer
result, and string operations work on the underlying character lists.
-/

namespace DoggyDaycare

/-- Status constants from `app/context/DogStatusContext.js` (the STATUS
object): PRESENT, ABSENT and the filter-only wildcard ALL. -/
def STATUS.PRESENT : String := "present"

/-- Status constant "absent". -/
def STATUS.ABSENT : String := "absent"

/-- Filter-only status constant "all". -/
def STATUS.ALL : String := "all"

/-- Owner sub-record of a dog (name, last name, optional phone). -/
structure Owner where
  name : String
  lastName : String
  phoneNumber : Option String
deriving DecidableEq, Repr

/-- Dog record as fetched from the remote JSON roster.  Fields that the
views guard with explicit fallbacks (`dog.name || ""`, `dog.img ? ... `,
`dog.owner ? ...`, `dog.breed || ...`) are optional. -/
structure Dog where
  chipNumber : String
  name : Option String
  breed : Option String
  sex : Option String
  age : Nat
  img : Option String
  present : Bool
  owner : Option Owner
deriving DecidableEq, Repr

/-- The `changedDogs` overlay object of DogStatusContext, modelled as an
association list from chip number to status string in which the most
recent (leftmost) binding for a key wins — extensionally the JS object:
`k in obj` / `obj[k]` become `ovLookup`, and the spread update
`{...prev, [k]: v}` becomes `ovInsert`. -/
abbrev Overlay := List (String × String)

/-- Lookup of `obj[k]` (first binding wins). -/
def ovLookup (m : Overlay) (k : String) : Option String :=
  (m.find? (fun e => e.1 == k)).map (fun e => e.2)

/-- The update `{...prev, [k]: v}`: the new binding shadows any old one. -/
def ovInsert (m : Overlay) (k : String) (v : String) : Overlay :=
  (k, v) :: m

/-- Effective status as computed in the list view (`DogList`, the
`status` constant inside the `filteredDogs.map` body):
`dog.chipNumber in changedDogs ? changedDogs[dog.chipNumber]
 : dog.present === true ? STATUS.PRESENT : STATUS.ABSENT`. -/
def DogList.status (changedDogs : Overlay) (dog : Dog) : String :=
  match ovLookup changedDogs dog.chipNumber with
  | some s => s
  | none => if dog.present == true then STATUS.PRESENT else STATUS.ABSENT

/-- Effective status as computed in the detail view (`DogDetails`, the
`status` constant before the return):
`dog.chipNumber in changedDogs ? changedDogs[dog.chipNumber]
 : dog.present ? STATUS.PRESENT : STATUS.ABSENT`. -/
def DogDetails.status (changedDogs : Overlay) (dog : Dog) : String :=
  match ovLookup changedDogs dog.chipNumber with
  | some s => s
  | none => if dog.present then STATUS.PRESENT else STATUS.ABSENT

/-- Sample dog "Rex" (spec end-to-end scenario roster). -/
def rex : Dog :=
  { chipNumber := "A1", name := some "Rex", breed := none, sex := none
    age := 3, img := none, present := true, owner := none }

/-- Sample dog "Fido" (spec end-to-end scenario roster). -/
def fido : Dog :=
  { chipNumber := "B2", name := some "Fido", breed := none, sex := none
    age := 5, img := none, present := false, owner := none }

/-- JS `Array.prototype.findIndex`: the index of the first element
satisfying the predicate, or -1 when none does. -/
def findIndexJs (p : Dog → Bool) : List Dog → Int
  | [] => -1
  | d :: ds =>
    if p d then 0
    else
      let r := findIndexJs p ds
      if r = -1 then -1 else r + 1

/-- JS array subscript `dogs[i]` (undefined outside bounds). -/
def jsGet (l : List Dog) (i : Int) : Option Dog :=
  if 0 ≤ i then l[i.toNat]? else none

/-- The `setupNavigation` function of `DogDetails`: finds the index of the
current chip number with `findIndex` and sets the previous chip number when
`dogIndex > 0` and the next one when `dogIndex < dogs.length - 1`, `null`
otherwise.  The pair is (prevDogId, nextDogId). -/
def setupNavigation (dogs : List Dog) (currentChipNumber : String) :
    Option String × Option String :=
  let dogIndex : Int := findIndexJs (fun d => d.chipNumber == currentChipNumber) dogs
  (if dogIndex > 0 then (jsGet dogs (dogIndex - 1)).map Dog.chipNumber else none,
   if dogIndex < (dogs.length : Int) - 1 then
     (jsGet dogs (dogIndex + 1)).map Dog.chipNumber
   else none)

/-- When no element satisfies the predicate, `findIndex` returns -1. -/
theorem findIndexJs_eq_neg_one (p : Dog → Bool) (l : List Dog)
    (h : ∀ d ∈ l, p d = false) : findIndexJs p l = -1 := by
  induction l with
  | nil => rfl
  | cons d ds ih =>
    have hd : p d = false := h d (List.mem_cons_self d ds)
    have ht : findIndexJs p ds = -1 :=
      ih fun d hmem => h d (List.mem_cons_of_mem _ hmem)
    simp [findIndexJs, hd, ht]

/-- When some element satisfies the predicate, `findIndex` agrees with the
first-match index `List.findIdx`. -/
theorem findIndexJs_of_found (p : Dog → Bool) (l : List Dog)
    (h : l.findIdx p < l.length) : findIndexJs p l = (l.findIdx p : Int) := by
  induction l with
  | nil => simp at h
  | cons d ds ih =>
    by_cases hp : p d
    · simp [findIndexJs, hp, List.findIdx_cons]
    · have h' : ds.findIdx p < ds.length := by
        simp only [List.findIdx_cons, hp, cond_false, List.length_cons] at h
        omega
      have hge : (0 : Int) ≤ (ds.findIdx p : Int) := Int.natCast_nonneg _
      have hne : (ds.findIdx p : Int) ≠ -1 := by omega
      simp only [findIndexJs, hp, if_false, ih h', hne, List.findIdx_cons,
        cond_false]
      push_cast
      omega

/-- C1: for every dog record and overlay map, the effective status equals
the overlay entry for the dog's chip number when such an entry exists, and
otherwise equals "present" exactly when the dog's boolean `present` field
is true and "absent" when it is not; and the list view and the detail view
compute this derivation by the same function. -/
theorem effectiveStatus_spec (dog : Dog) (m : Overlay) :
    (∀ v, ovLookup m dog.chipNumber = some v → DogList.status m dog = v) ∧
    (ovLookup m dog.chipNumber = none →
      DogList.status m dog =
        if dog.present then STATUS.PRESENT else STATUS.ABSENT) ∧
    DogList.status m dog = DogDetails.status m dog := by
  unfold DogList.status DogDetails.status
  cases h : ovLookup m dog.chipNumber <;> cases hp : dog.present <;>
    simp [h, hp]

/-- Concrete instance of `effectiveStatus_spec`: with an overlay entry for
Rex's chip number the entry wins. -/
theorem effectiveStatus_spec_witness :
    DogList.status [("A1", "absent")] rex = "absent" :=
  (effectiveStatus_spec rex [("A1", "absent")]).1 "absent" (by decide)

/-- C2 fails on the code: for the one-dog roster [rex] and the absent
identifier "ZZ", `findIndex` returns -1, so the `next` branch compares
-1 < 1 - 1 and is taken, yielding the first dog's chip number instead of
null. -/
theorem setupNavigation_notFound_counterexample :
    (∀ d ∈ [rex], d.chipNumber ≠ "ZZ") ∧
      setupNavigation [rex] "ZZ" ≠ (none, none) := by decide

/-- C2 amended: for an identifier that occurs nowhere in the roster, the
navigation resolver yields previous = null always, and next = null only
when the roster is empty — on a non-empty roster it yields the first
dog's chip number as next (because `findIndex` returns -1 and
-1 < length - 1 holds). -/
theorem setupNavigation_notFound (dogs : List Dog) (id : String)
    (h : ∀ d ∈ dogs, d.chipNumber ≠ id) :
    (setupNavigation dogs id).1 = none ∧
      (setupNavigation dogs id).2 = dogs.head?.map Dog.chipNumber := by
  have hfalse : ∀ d ∈ dogs, (fun d => d.chipNumber == id) d = false := by
    intro d hd
    simpa using h d hd
  have hidx := findIndexJs_eq_neg_one _ dogs hfalse
  unfold setupNavigation
  simp only [hidx]
  constructor
  · norm_num
  · cases dogs with
    | nil => simp
    | cons d ds =>
      have hlt : (-1 : Int) < ((d :: ds).length : Int) - 1 := by
        simp only [List.length_cons]
        push_cast
        omega
      simp [hlt, jsGet]
      omega

/-- Concrete instance of `setupNavigation_notFound`: missing identifier on
the two-dog roster gives (none, some first-chip). -/
theorem setupNavigation_notFound_witness :
    (setupNavigation [rex, fido] "ZZ").1 = none ∧
      (setupNavigation [rex, fido] "ZZ").2 = some "A1" := by
  have := setupNavigation_notFound [rex, fido] "ZZ" (by decide)
  simpa using this

/-- C7: for a roster in which the identifier occurs at first position i,
the resolver yields previous = null at i = 0 and next = null at
i = length - 1; at an interior position it yields the chip number at
position i - 1 as previous and the chip number at position i + 1 as
next. -/
theorem setupNavigation_found (dogs : List Dog) (id : String) (i : Nat)
    (hfind : dogs.findIdx (fun d => d.chipNumber == id) = i)
    (hocc : i < dogs.length) :
    ((i = 0 → (setupNavigation dogs id).1 = none) ∧
     (i = dogs.length - 1 → (setupNavigation dogs id).2 = none) ∧
     (0 < i → ∃ d, dogs[i - 1]? = some d ∧
        (setupNavigation dogs id).1 = some d.chipNumber) ∧
     (i < dogs.length - 1 → ∃ d, dogs[i + 1]? = some d ∧
        (setupNavigation dogs id).2 = some d.chipNumber)) := by
  have hidx : findIndexJs (fun d => d.chipNumber == id) dogs = (i : Int) := by
    rw [findIndexJs_of_found _ _ (hfind ▸ hocc), hfind]
  unfold setupNavigation
  simp only [hidx]
  refine ⟨?_, ?_, ?_, ?_⟩
  · intro h0
    subst h0
    norm_num
  · intro hlast
    have : ¬ ((i : Int) < (dogs.length : Int) - 1) := by omega
    simp [this]
  · intro hpos
    have hcond : (0 : Int) < (i : Int) := by exact_mod_cast hpos
    have htn : ((i : Int) - 1).toNat = i - 1 := by omega
    have hb : i - 1 < dogs.length := by omega
    refine ⟨dogs[i - 1], ?_, ?_⟩
    · simp [List.getElem?_eq_getElem hb]
    · simp [hcond, jsGet, htn, List.getElem?_eq_getElem hb]
      omega
  · intro hin
    have hcond : (i : Int) < (dogs.length : Int) - 1 := by omega
    have htn : ((i : Int) + 1).toNat = i + 1 := by omega
    have hb : i + 1 < dogs.length := by omega
    refine ⟨dogs[i + 1], ?_, ?_⟩
    · simp [List.getElem?_eq_getElem hb]
    · simp [hcond, jsGet, htn, List.getElem?_eq_getElem hb]
      omega

/-- Concrete instance of `setupNavigation_found`: Fido sits between Rex
and a third dog, so both neighbours are returned. -/
theorem setupNavigation_found_witness :
    (setupNavigation [rex, fido,
        { chipNumber := "C3", name := some "Bella", breed := none
          sex := none, age := 2, img := none, present := true
          owner := none }] "B2").1 = some "A1" ∧
    (setupNavigation [rex, fido,
        { chipNumber := "C3", name := some "Bella", breed := none
          sex := none, age := 2, img := none, present := true
          owner := none }] "B2").2 = some "C3" := by
  have h := setupNavigation_found [rex, fido,
      { chipNumber := "C3", name := some "Bella", breed := none
        sex := none, age := 2, img := none, present := true
        owner := none }] "B2" 1 (by decide) (by decide)
  obtain ⟨-, -, hprev, hnext⟩ := h
  obtain ⟨d1, hd1, hp⟩ := hprev (by decide)
  obtain ⟨d2, hd2, hn⟩ := hnext (by decide)
  constructor
  · rw [hp]
    have : rex = d1 := by
      simpa using hd1
    simp [← this, rex]
  · rw [hn]
    have hd2eq : d2.chipNumber = "C3" := by
      simp at hd2
      rw [← hd2]
    simp [hd2eq]

/-- State held by the DogStatusProvider context: the overlay map, the
transient isUpdating flag, and the last recorded error. -/
structure StoreState where
  changedDogs : Overlay
  isUpdating : Bool
  lastError : Option String
deriving DecidableEq, Repr

/-- Initial context state: empty overlay, not updating, no error. -/
def initialStore : StoreState :=
  { changedDogs := [], isUpdating := false, lastError := none }

/-- The `updateStatus` callback of DogStatusContext: a falsy chip number
(the empty string here; a missing identifier is modelled the same way) is
rejected with `lastError` set and return value false; otherwise it sets
`isUpdating`, writes the overlay entry via the spread update, schedules
the 300 ms timeout that will clear `isUpdating`, and returns true.  The
second component is the function's return value. -/
def updateStatus (st : StoreState) (chipNumber : String) (newStatus : String) :
    StoreState × Bool :=
  if chipNumber == "" then
    ({ st with lastError := some "Invalid dog identifier" }, false)
  else
    ({ st with
        isUpdating := true
        changedDogs := ovInsert st.changedDogs chipNumber newStatus }, true)

/-- Firing of the `setTimeout` scheduled by a successful `updateStatus`:
after the fixed 300 ms delay it clears `isUpdating`. -/
def updateStatusTimeout (st : StoreState) : StoreState :=
  { st with isUpdating := false }

/-- The `clearError` callback of DogStatusContext. -/
def clearError (st : StoreState) : StoreState :=
  { st with lastError := none }

/-- The `toggleStatus` handler of DogDetails: reads the effective status
(overlay entry if present, else derived from `dog.present === true`),
flips present ↔ absent, and calls `updateStatus` with the dog's chip
number. -/
def toggleStatus (st : StoreState) (dog : Dog) : StoreState :=
  let currentPresent := dog.present == true
  let currentStatus :=
    match ovLookup st.changedDogs dog.chipNumber with
    | some s => s
    | none => if currentPresent then STATUS.PRESENT else STATUS.ABSENT
  let newStatus :=
    if currentStatus == STATUS.PRESENT then STATUS.ABSENT else STATUS.PRESENT
  (updateStatus st dog.chipNumber newStatus).1

/-- A sequence of toggle actions applied in order. -/
def toggleSeq (st : StoreState) (ds : List Dog) : StoreState :=
  ds.foldl toggleStatus st

/-- Looking up the key just inserted returns the new value. -/
theorem ovLookup_ovInsert_self (m : Overlay) (k v : String) :
    ovLookup (ovInsert m k v) k = some v := by
  simp [ovLookup, ovInsert]

/-- Looking up a different key is unaffected by an insert. -/
theorem ovLookup_ovInsert_ne (m : Overlay) (k k' v : String) (h : k' ≠ k) :
    ovLookup (ovInsert m k v) k' = ovLookup m k' := by
  simp [ovLookup, ovInsert, List.find?_cons, Ne.symm h]

/-- Characterization of the overlay after one toggle: unchanged for a
falsy chip number, otherwise the flipped effective status is written at
the dog's key. -/
theorem toggleStatus_changedDogs (st : StoreState) (dog : Dog) :
    (toggleStatus st dog).changedDogs =
      if dog.chipNumber = "" then st.changedDogs
      else ovInsert st.changedDogs dog.chipNumber
        (if DogDetails.status st.changedDogs dog = STATUS.PRESENT
         then STATUS.ABSENT else STATUS.PRESENT) := by
  unfold toggleStatus updateStatus DogDetails.status
  by_cases h : dog.chipNumber = "" <;>
    cases hov : ovLookup st.changedDogs dog.chipNumber <;>
      cases hp : dog.present <;>
        simp +decide [h, hov, hp, STATUS.PRESENT, STATUS.ABSENT]

/-- The effective status of a dog is always either "present" or "absent"
when the overlay entry at its key (if any) is one of the two. -/
theorem status_present_or_absent (st : StoreState) (dog : Dog)
    (hwf : ∀ v, ovLookup st.changedDogs dog.chipNumber = some v →
      v = STATUS.PRESENT ∨ v = STATUS.ABSENT) :
    DogDetails.status st.changedDogs dog = STATUS.PRESENT ∨
      DogDetails.status st.changedDogs dog = STATUS.ABSENT := by
  unfold DogDetails.status
  cases h : ovLookup st.changedDogs dog.chipNumber with
  | none => cases dog.present <;> simp
  | some v => simpa using hwf v h

/-- After a toggle (with a non-empty chip number) the effective status is
the flip of the effective status before. -/
theorem status_toggleStatus (st : StoreState) (dog : Dog)
    (h : dog.chipNumber ≠ "") :
    DogDetails.status (toggleStatus st dog).changedDogs dog =
      if DogDetails.status st.changedDogs dog = STATUS.PRESENT
      then STATUS.ABSENT else STATUS.PRESENT := by
  have hc := toggleStatus_changedDogs st dog
  rw [if_neg h] at hc
  conv_lhs => unfold DogDetails.status
  rw [hc, ovLookup_ovInsert_self]

/-- A toggle only ever writes "present" or "absent" into the overlay,
so it preserves the property that every stored value is one of the two. -/
theorem toggleStatus_preserves_values (st : StoreState) (d : Dog)
    (hst : ∀ k v, ovLookup st.changedDogs k = some v →
      v = STATUS.PRESENT ∨ v = STATUS.ABSENT) :
    ∀ k v, ovLookup (toggleStatus st d).changedDogs k = some v →
      v = STATUS.PRESENT ∨ v = STATUS.ABSENT := by
  intro k v hv
  rw [toggleStatus_changedDogs] at hv
  by_cases hchip : d.chipNumber = ""
  · rw [if_pos hchip] at hv
    exact hst k v hv
  · rw [if_neg hchip] at hv
    by_cases hk : k = d.chipNumber
    · subst hk
      rw [ovLookup_ovInsert_self] at hv
      have hv' := (Option.some.inj hv).symm
      rw [hv']
      split
      · exact Or.inr rfl
      · exact Or.inl rfl
    · rw [ovLookup_ovInsert_ne _ _ _ _ hk] at hv
      exact hst k v hv

/-- Every overlay value reachable by toggles from a store whose values are
all "present"/"absent" is again "present"/"absent". -/
theorem toggleSeq_values (ds : List Dog) (st : StoreState)
    (hst : ∀ k v, ovLookup st.changedDogs k = some v →
      v = STATUS.PRESENT ∨ v = STATUS.ABSENT) :
    ∀ k v, ovLookup (toggleSeq st ds).changedDogs k = some v →
      v = STATUS.PRESENT ∨ v = STATUS.ABSENT := by
  induction ds generalizing st with
  | nil => exact hst
  | cons d ds ih =>
    exact ih (toggleStatus st d) (toggleStatus_preserves_values st d hst)

/-- C3: a toggle stores the flip of the dog's effective status, and from
the empty overlay any sequence of toggles yields an overlay whose stored
values are all "present" or "absent" — the filter-only value "all" never
appears as a stored entry. -/
theorem toggleStatus_flip_and_only_present_absent (ds : List Dog) :
    (∀ st dog, dog.chipNumber ≠ "" →
      ovLookup (toggleStatus st dog).changedDogs dog.chipNumber =
        some (if DogDetails.status st.changedDogs dog = STATUS.PRESENT
              then STATUS.ABSENT else STATUS.PRESENT)) ∧
    (∀ k v, ovLookup (toggleSeq initialStore ds).changedDogs k = some v →
      (v = STATUS.PRESENT ∨ v = STATUS.ABSENT) ∧ v ≠ STATUS.ALL) := by
  constructor
  · intro st dog hchip
    have hc := toggleStatus_changedDogs st dog
    rw [if_neg hchip] at hc
    rw [hc, ovLookup_ovInsert_self]
  · intro k v hv
    have hv2 := toggleSeq_values ds initialStore
      (by intro k v h; simp [initialStore, ovLookup] at h) k v hv
    refine ⟨hv2, ?_⟩
    rcases hv2 with rfl | rfl <;> simp [STATUS.PRESENT, STATUS.ABSENT, STATUS.ALL]

/-- Concrete instance of the toggle theorem: toggling Rex (present, no
overlay entry) stores "absent", and after toggling Rex twice and Fido
once every stored value is "present" or "absent". -/
theorem toggleStatus_flip_witness :
    ovLookup (toggleStatus initialStore rex).changedDogs "A1" = some "absent" ∧
    (ovLookup (toggleSeq initialStore [rex, rex, fido]).changedDogs "B2"
        = some "present" →
      ("present" = STATUS.PRESENT ∨ "present" = STATUS.ABSENT) ∧
        "present" ≠ STATUS.ALL) := by
  constructor
  · have h := (toggleStatus_flip_and_only_present_absent []).1 initialStore rex
      (by decide)
    simpa [initialStore, DogDetails.status, ovLookup, rex,
      STATUS.PRESENT, STATUS.ABSENT] using h
  · exact (toggleStatus_flip_and_only_present_absent [rex, rex, fido]).2
      "B2" "present"

/-- C4: updateStatus rejects an empty/missing identifier, recording the
validation error, returning false, and leaving the overlay untouched; for
a non-empty identifier it returns true, synchronously inserts/overwrites
the entry (other keys unchanged), sets the updating flag, and the
scheduled timeout later clears the flag. -/
theorem updateStatus_spec (st : StoreState) (chip v : String) :
    (chip = "" →
      (updateStatus st chip v).2 = false ∧
      (updateStatus st chip v).1.lastError = some "Invalid dog identifier" ∧
      (updateStatus st chip v).1.changedDogs = st.changedDogs) ∧
    (chip ≠ "" →
      (updateStatus st chip v).2 = true ∧
      ovLookup (updateStatus st chip v).1.changedDogs chip = some v ∧
      (∀ k, k ≠ chip →
        ovLookup (updateStatus st chip v).1.changedDogs k
          = ovLookup st.changedDogs k) ∧
      (updateStatus st chip v).1.isUpdating = true ∧
      (updateStatusTimeout (updateStatus st chip v).1).isUpdating = false) := by
  constructor
  · intro h
    subst h
    simp [updateStatus]
  · intro h
    have hbeq : (chip == "") = false := by simpa using h
    refine ⟨?_, ?_, ?_, ?_, ?_⟩ <;>
      simp [updateStatus, hbeq, updateStatusTimeout, ovLookup_ovInsert_self]
    intro k hk
    exact ovLookup_ovInsert_ne _ _ _ _ hk

/-- Concrete instance of `updateStatus_spec`: the empty identifier is
rejected and a real one is written. -/
theorem updateStatus_spec_witness :
    (updateStatus initialStore "" "absent").2 = false ∧
    (updateStatus initialStore "A1" "absent").2 = true := by
  refine ⟨((updateStatus_spec initialStore "" "absent").1 rfl).1, ?_⟩
  exact ((updateStatus_spec initialStore "A1" "absent").2 (by decide)).1

/-- C10: toggling the same dog twice in a row returns its effective status
to what it was before the first toggle, for every overlay map of the data
model (values drawn from the status enum "present"/"absent" — stated as a
hypothesis on the entry at the dog's key). -/
theorem toggleStatus_twice_involutive (st : StoreState) (dog : Dog)
    (hwf : ∀ v, ovLookup st.changedDogs dog.chipNumber = some v →
      v = STATUS.PRESENT ∨ v = STATUS.ABSENT) :
    DogDetails.status (toggleStatus (toggleStatus st dog) dog).changedDogs dog
      = DogDetails.status st.changedDogs dog := by
  by_cases hchip : dog.chipNumber = ""
  · have hc := toggleStatus_changedDogs st dog
    rw [if_pos hchip] at hc
    have hc2 := toggleStatus_changedDogs (toggleStatus st dog) dog
    rw [if_pos hchip, hc] at hc2
    unfold DogDetails.status
    rw [hc2]
  · have heff := status_present_or_absent st dog hwf
    rw [status_toggleStatus _ _ hchip, status_toggleStatus _ _ hchip]
    rcases heff with h | h <;> rw [h] <;>
      simp [STATUS.PRESENT, STATUS.ABSENT]

/-- Concrete instance of `toggleStatus_twice_involutive`: toggling Rex
twice from the empty overlay restores effective status "present". -/
theorem toggleStatus_twice_involutive_witness :
    DogDetails.status
      (toggleStatus (toggleStatus initialStore rex) rex).changedDogs rex
      = "present" := by
  have h := toggleStatus_twice_involutive initialStore rex
    (by intro v hv; simp [initialStore, ovLookup] at hv)
  rw [h]
  decide

/-- JS `String.prototype.toLowerCase`, character by character. -/
def jsToLower (s : String) : String :=
  String.mk (s.data.map Char.toLower)

/-- Starts-with test on character lists. -/
def startsWithChars : List Char → List Char → Bool
  | [], _ => true
  | _ :: _, [] => false
  | c :: cs, d :: ds => (c == d) && startsWithChars cs ds

/-- Occurrence of `sub` as a contiguous run somewhere in the second
list. -/
def containsChars (sub : List Char) : List Char → Bool
  | [] => sub.isEmpty
  | c :: t => startsWithChars sub (c :: t) || containsChars sub t

/-- JS `String.prototype.includes`: `s.includes(sub)`. -/
def jsIncludes (s sub : String) : Bool :=
  containsChars sub.data s.data

/-- The name predicate of `filteredDogs` (first `.filter`):
`(dog.name || "").toLowerCase().includes((debouncedSearchTerm || "").toLowerCase())`. -/
def nameMatches (debouncedSearchTerm : Option String) (dog : Dog) : Bool :=
  jsIncludes (jsToLower (dog.name.getD ""))
    (jsToLower (debouncedSearchTerm.getD ""))

/-- The status predicate of `filteredDogs` (second `.filter`): true for
the wildcard filter, otherwise the effective status is compared with the
filter value. -/
def statusMatches (filter : String) (changedDogs : Overlay) (dog : Dog) : Bool :=
  if filter == STATUS.ALL then true
  else
    match ovLookup changedDogs dog.chipNumber with
    | some s => s == filter
    | none =>
      (if dog.present == true then STATUS.PRESENT else STATUS.ABSENT) == filter

/-- The `filteredDogs` pipeline of DogList:
`dogs.filter(name predicate).filter(status predicate)`. -/
def filteredDogs (dogs : List Dog) (debouncedSearchTerm : Option String)
    (filter : String) (changedDogs : Overlay) : List Dog :=
  (dogs.filter (nameMatches debouncedSearchTerm)).filter
    (statusMatches filter changedDogs)

/-- The starts-with test decides list-prefix. -/
theorem startsWithChars_iff (sub l : List Char) :
    startsWithChars sub l = true ↔ sub <+: l := by
  induction sub generalizing l with
  | nil => simp [startsWithChars, List.nil_prefix]
  | cons c cs ih =>
    cases l with
    | nil => simp [startsWithChars, List.prefix_nil]
    | cons d ds =>
      simp [startsWithChars, List.cons_prefix_cons, ih]

/-- The containment test decides list-infix. -/
theorem containsChars_iff (sub l : List Char) :
    containsChars sub l = true ↔ sub <:+: l := by
  induction l with
  | nil => simp [containsChars, List.infix_nil, List.isEmpty_iff]
  | cons c t ih =>
    simp [containsChars, List.infix_cons_iff, startsWithChars_iff, ih]

/-- JS `includes` decides substring occurrence (as infix of the character
lists). -/
theorem jsIncludes_iff (s sub : String) :
    jsIncludes s sub = true ↔ sub.data <:+: s.data := by
  simp [jsIncludes, containsChars_iff]

/-- C5: the filter engine returns the ordered subsequence of the roster
of exactly those dogs passing the name predicate AND the status
predicate; the name predicate is the case-insensitive substring test of
the debounced search term against the name, an empty or undefined term
matches every dog, and a missing name behaves as the empty string, so it
matches exactly when the term is empty or undefined. -/
theorem filteredDogs_spec (dogs : List Dog) (s : Option String)
    (filter : String) (m : Overlay) :
    (filteredDogs dogs s filter m =
      dogs.filter (fun d => nameMatches s d && statusMatches filter m d)) ∧
    (filteredDogs dogs s filter m).Sublist dogs ∧
    (∀ d, d ∈ filteredDogs dogs s filter m ↔
      d ∈ dogs ∧ nameMatches s d = true ∧ statusMatches filter m d = true) ∧
    (∀ d, nameMatches s d = true ↔
      (jsToLower (s.getD "")).data <:+: (jsToLower (d.name.getD "")).data) ∧
    (s = none ∨ s = some "" → ∀ d, nameMatches s d = true) ∧
    (∀ d, d.name = none →
      (nameMatches s d = true ↔ (s = none ∨ s = some ""))) := by
  refine ⟨?_, ?_, ?_, ?_, ?_, ?_⟩
  · unfold filteredDogs
    rw [List.filter_filter]
    exact List.filter_congr fun d _ => Bool.and_comm _ _
  · exact (List.filter_sublist _).trans (List.filter_sublist _)
  · intro d
    unfold filteredDogs
    simp [List.mem_filter]
    tauto
  · intro d
    exact jsIncludes_iff _ _
  · have hnil : ∀ l : List Char, containsChars [] l = true := fun l =>
      (containsChars_iff [] l).mpr List.nil_infix
    rintro (rfl | rfl) d <;>
      simp [nameMatches, jsIncludes, jsToLower, hnil]
  · intro d hname
    unfold nameMatches
    rw [jsIncludes_iff]
    have hdata : (jsToLower (d.name.getD "")).data = [] := by
      rw [hname]
      rfl
    rw [hdata, List.infix_nil]
    simp only [jsToLower, List.map_eq_nil_iff]
    constructor
    · intro h
      cases s with
      | none => exact Or.inl rfl
      | some str =>
        refine Or.inr ?_
        have : str.data = [] := by simpa using h
        have := String.ext this
        simp [this]
    · rintro (rfl | rfl) <;> simp

/-- Concrete instance of `filteredDogs_spec`: searching "fi" on the
two-dog roster keeps exactly Fido (spec end-to-end scenario 2). -/
theorem filteredDogs_spec_witness :
    filteredDogs [rex, fido] (some "fi") "all" [] = [fido] ∧
    nameMatches (some "") rex = true := by
  constructor
  · decide
  · exact (filteredDogs_spec [rex] (some "") "all" []).2.2.2.2.1
      (Or.inr rfl) rex

/-- C8: for every search term, roster and overlay map, filtering by the
name predicate and then by the wildcard "all" status yields the same list
(hence the same set) as filtering by the wildcard status first and then
by the name predicate, and this common list is `filteredDogs` at the
wildcard filter. -/
theorem searchFilter_status_commute (dogs : List Dog) (s : Option String)
    (m : Overlay) :
    ((dogs.filter (nameMatches s)).filter (statusMatches STATUS.ALL m) =
      (dogs.filter (statusMatches STATUS.ALL m)).filter (nameMatches s)) ∧
    (dogs.filter (nameMatches s)).filter (statusMatches STATUS.ALL m) =
      filteredDogs dogs s STATUS.ALL m := by
  have hall : ∀ d, statusMatches STATUS.ALL m d = true := by
    intro d
    simp [statusMatches]
  have h1 : ∀ l : List Dog, l.filter (statusMatches STATUS.ALL m) = l := by
    intro l
    rw [List.filter_congr fun d _ => hall d]
    exact List.filter_true l
  refine ⟨?_, rfl⟩
  rw [h1, h1]

/-- Body of a fetch response as seen by `res.json()`: a JSON array of dog
records or any other JSON shape. -/
inductive ResponseBody
  | arrayOf (dogs : List Dog)
  | notArray
deriving DecidableEq, Repr

/-- Outcome of the awaited `fetch` in `fetchDogs`' try block: a received
response (with its `ok` flag, HTTP status and body), the AbortError fired
by the 10 s AbortController timeout, or any other rejection with its
message. -/
inductive FetchOutcome
  | response (ok : Bool) (status : Nat) (body : ResponseBody)
  | abortError
  | networkFailure (message : String)
deriving DecidableEq, Repr

/-- Errors surfaced in the list page's error state, by kind: the thrown
message "Failed to fetch dogs (Status: N)" carries the HTTP status, the
message "Invalid data format: expected an array of dogs" is the shape
failure, the AbortError branch yields the timeout message, and any other
failure surfaces its own message (with a fallback for an empty one). -/
inductive LoadError
  | fetchError (status : Nat)
  | formatError
  | timeoutError
  | networkError (message : String)
deriving DecidableEq, Repr

/-- State of the DogList page touched by `fetchDogs`. -/
structure ListState where
  dogs : List Dog
  isLoading : Bool
  error : Option LoadError
deriving DecidableEq, Repr

/-- Initial list-page state: empty roster, loading, no error. -/
def initialListState : ListState :=
  { dogs := [], isLoading := true, error := none }

/-- The `fetchDogs` callback of DogList: sets loading and clears the
error, awaits the fetch, throws on `!res.ok` (carrying the status) and on
a non-array payload, stores the roster on success, catches every failure
into the error state (classifying the AbortError as a timeout), and
finally clears the loading flag.  No failure escapes: the function is
total into the page state. -/
def fetchDogs (st : ListState) (outcome : FetchOutcome) : ListState :=
  let st := { st with isLoading := true, error := none }
  match outcome with
  | .response ok status body =>
    if !ok then
      { st with error := some (.fetchError status), isLoading := false }
    else
      match body with
      | .arrayOf data => { st with dogs := data, isLoading := false }
      | .notArray =>
        { st with error := some .formatError, isLoading := false }
  | .abortError =>
    { st with error := some .timeoutError, isLoading := false }
  | .networkFailure msg =>
    { st with
        error := some (.networkError
          (if msg == "" then "Failed to load dogs" else msg))
        isLoading := false }

/-- The Retry button of the list page: `onClick={fetchDogs}` simply
re-invokes the fetch. -/
def retryFetch : ListState → FetchOutcome → ListState :=
  fetchDogs

/-- C6: fetchDogs classifies failures — a non-success HTTP status yields
a fetch error carrying the status code; a body that is not an array
yields a format error with the roster left empty (the roster is not
modified on any error path); every failure lands in the error state of
the total transition function rather than escaping; and retry is the very
same fetch function. -/
theorem fetchDogs_error_classification (st : ListState) (status : Nat)
    (body : ResponseBody) :
    (fetchDogs st (.response false status body) =
      { dogs := st.dogs, isLoading := false
        error := some (.fetchError status) }) ∧
    (fetchDogs st (.response true status .notArray) =
      { dogs := st.dogs, isLoading := false, error := some .formatError }) ∧
    (st.dogs = [] →
      (fetchDogs st (.response true status .notArray)).dogs = []) ∧
    (∀ outcome : FetchOutcome, (fetchDogs st outcome).error ≠ none →
      (fetchDogs st outcome).dogs = st.dogs) ∧
    retryFetch = fetchDogs := by
  refine ⟨rfl, rfl, ?_, ?_, rfl⟩
  · intro h
    simpa [fetchDogs] using h
  · intro outcome h
    cases outcome with
    | response ok status body =>
      cases ok <;> cases body <;> simp_all [fetchDogs]
    | abortError => rfl
    | networkFailure msg => rfl

/-- Concrete instance of `fetchDogs_error_classification`: an HTTP 500
response leaves the initial roster empty and exposes the fetch error with
code 500, and a non-array body exposes the format error (spec end-to-end
scenarios 4 and 5). -/
theorem fetchDogs_error_classification_witness :
    fetchDogs initialListState (.response false 500 .notArray) =
      { dogs := [], isLoading := false
        error := some (.fetchError 500) } ∧
    (fetchDogs initialListState (.response true 200 .notArray)).dogs = [] := by
  refine ⟨(fetchDogs_error_classification initialListState 500 .notArray).1, ?_⟩
  exact (fetchDogs_error_classification initialListState 200
    .notArray).2.2.1 rfl

/-- State of the `useDebounce` hook together with its pending
`setTimeout` timer (deadline and captured value) and the log of
emissions, i.e. the calls to `setDebouncedValue`. -/
structure DebounceState where
  debouncedValue : Option String
  pending : Option (Nat × String)
  emitted : List String
deriving DecidableEq, Repr

/-- Event-loop firing of a due pending timer at time `t`: the scheduled
`setDebouncedValue(value)` runs with the captured value; an undue or
absent timer does nothing. -/
def fireIfDue (t : Nat) (st : DebounceState) : DebounceState :=
  match st.pending with
  | some (deadline, v) =>
    if deadline ≤ t then
      { debouncedValue := some v, pending := none
        emitted := st.emitted ++ [v] }
    else st
  | none => st

/-- One run of the `useDebounce` effect for a new input value at time
`t`: a timer already due fires first (event-loop order), then the cleanup
of the previous run clears any pending timer; when the value is undefined
nothing is scheduled, otherwise a timer for the value is set at
`t + delay`. -/
def debounceInput (delay : Nat) (st : DebounceState) (t : Nat)
    (value : Option String) : DebounceState :=
  let st := fireIfDue t st
  match value with
  | none => { st with pending := none }
  | some v => { st with pending := some (t + delay, v) }

/-- A timed sequence of input updates fed through the hook. -/
def debounceRun (delay : Nat) (st : DebounceState) :
    List (Nat × Option String) → DebounceState
  | [] => st
  | (t, v) :: rest => debounceRun delay (debounceInput delay st t v) rest

/-- A burst: strictly increasing update times with every consecutive gap
less than the delay window. -/
def burstTimes (delay : Nat) : List (Nat × Option String) → Bool
  | [] => true
  | [_] => true
  | (t₁, _) :: (t₂, v₂) :: rest =>
    decide (t₁ < t₂) && decide (t₂ < t₁ + delay) &&
      burstTimes delay ((t₂, v₂) :: rest)

/-- During a burst no pending timer ever fires: the run leaves the
emission log and the debounced value untouched, and the pending timer
afterwards is the one scheduled by the last update (none if that update
was undefined). -/
theorem debounceRun_burst (delay : Nat) (es : List (Nat × Option String)) :
    ∀ st : DebounceState,
      burstTimes delay es = true →
      (∀ d v, st.pending = some (d, v) →
        ∀ e, es.head? = some e → e.1 < d) →
      (debounceRun delay st es).emitted = st.emitted ∧
      (debounceRun delay st es).debouncedValue = st.debouncedValue ∧
      (debounceRun delay st es).pending =
        (match es.getLast? with
         | none => st.pending
         | some (_, none) => none
         | some (t, some v) => some (t + delay, v)) := by
  induction es with
  | nil => intro st _ _; exact ⟨rfl, rfl, rfl⟩
  | cons e rest ih =>
    intro st hburst hpend
    obtain ⟨t, v⟩ := e
    have hfire : fireIfDue t st = st := by
      unfold fireIfDue
      cases hp : st.pending with
      | none => rfl
      | some dv =>
        obtain ⟨d, w⟩ := dv
        have hlt : t < d := hpend d w hp (t, v) rfl
        simp [Nat.not_le.mpr hlt]
    have hstep : debounceRun delay st ((t, v) :: rest) =
        debounceRun delay (debounceInput delay st t v) rest := rfl
    have hinput : (debounceInput delay st t v).emitted = st.emitted ∧
        (debounceInput delay st t v).debouncedValue = st.debouncedValue := by
      cases v <;> simp [debounceInput, hfire]
    have hinp_pending : (debounceInput delay st t v).pending =
        (match v with
         | none => none
         | some w => some (t + delay, w)) := by
      cases v <;> simp [debounceInput, hfire]
    cases rest with
    | nil =>
      refine ⟨hinput.1, hinput.2, ?_⟩
      rw [hstep]
      unfold debounceRun
      rw [hinp_pending]
      cases v <;> rfl
    | cons e₂ rest₂ =>
      obtain ⟨t₂, v₂⟩ := e₂
      have hb : (decide (t < t₂) && decide (t₂ < t + delay) &&
          burstTimes delay ((t₂, v₂) :: rest₂)) = true := hburst
      have ht₂ : t₂ < t + delay := by
        simp only [Bool.and_eq_true, decide_eq_true_eq] at hb
        exact hb.1.2
      have hbrest : burstTimes delay ((t₂, v₂) :: rest₂) = true := by
        simp only [Bool.and_eq_true] at hb
        exact hb.2
      have hpend' : ∀ d w, (debounceInput delay st t v).pending = some (d, w) →
          ∀ e, ((t₂, v₂) :: rest₂).head? = some e → e.1 < d := by
        intro d w hdw e he
        rw [hinp_pending] at hdw
        cases v with
        | none => simp at hdw
        | some w' =>
          simp only [Option.some.injEq, Prod.mk.injEq] at hdw
          obtain ⟨rfl, rfl⟩ := hdw
          simp only [List.head?_cons, Option.some.injEq] at he
          rw [← he]
          exact ht₂
      have hrec := ih (debounceInput delay st t v) hbrest hpend'
      refine ⟨?_, ?_, ?_⟩
      · rw [hstep, hrec.1, hinput.1]
      · rw [hstep, hrec.2.1, hinput.2]
      · rw [hstep, hrec.2.2, List.getLast?_cons_cons]
        have hne : ((t₂, v₂) :: rest₂).getLast? ≠ none := by
          simp [List.getLast?_eq_getLast]
        cases hlast : ((t₂, v₂) :: rest₂).getLast? with
        | none => exact absurd hlast hne
        | some p =>
          obtain ⟨tp, vp⟩ := p
          cases vp <;> rfl

/-- C9: the debouncer is trailing-edge — over a burst of input updates
all within less than the delay window of each other (each new update
cancelling the earlier pending timer), nothing is emitted during the
burst; if the last value of the burst is defined, flushing the timer once
the delay has elapsed emits exactly that final value; and if the last
input is undefined/unset, no timer is pending and nothing is ever
emitted. -/
theorem useDebounce_trailing_edge (delay : Nat) (st : DebounceState)
    (es : List (Nat × Option String))
    (hburst : burstTimes delay es = true)
    (hpending : st.pending = none) :
    (debounceRun delay st es).emitted = st.emitted ∧
    (debounceRun delay st es).debouncedValue = st.debouncedValue ∧
    (∀ tl v, es.getLast? = some (tl, some v) →
      ∀ t, tl + delay ≤ t →
        (fireIfDue t (debounceRun delay st es)).debouncedValue = some v ∧
        (fireIfDue t (debounceRun delay st es)).emitted
          = st.emitted ++ [v]) ∧
    (∀ tl, es.getLast? = some (tl, none) →
      ∀ t, fireIfDue t (debounceRun delay st es) = debounceRun delay st es) := by
  have h := debounceRun_burst delay es st hburst
    (by intro d v hdv; rw [hpending] at hdv; exact absurd hdv (by simp))
  refine ⟨h.1, h.2.1, ?_, ?_⟩
  · intro tl v hlast t ht
    have hp : (debounceRun delay st es).pending = some (tl + delay, v) := by
      rw [h.2.2, hlast]
    have hfire : fireIfDue t (debounceRun delay st es) =
        { debouncedValue := some v, pending := none
          emitted := (debounceRun delay st es).emitted ++ [v] } := by
      unfold fireIfDue
      rw [hp]
      simp [ht]
    rw [hfire, h.1]
    exact ⟨rfl, rfl⟩
  · intro tl hlast t
    have hp : (debounceRun delay st es).pending = none := by
      rw [h.2.2, hlast]
    unfold fireIfDue
    rw [hp]

/-- Concrete instance of `useDebounce_trailing_edge`: three rapid updates
"r", "re", "rex" at times 0, 100, 250 with delay 300 emit nothing during
the burst, and flushing at time 550 emits exactly the final value
"rex". -/
theorem useDebounce_trailing_edge_witness :
    (debounceRun 300
      { debouncedValue := some "", pending := none, emitted := [] }
      [(0, some "r"), (100, some "re"), (250, some "rex")]).emitted = [] ∧
    (fireIfDue 550 (debounceRun 300
      { debouncedValue := some "", pending := none, emitted := [] }
      [(0, some "r"), (100, some "re"), (250, some "rex")])).debouncedValue
      = some "rex" := by
  have h := useDebounce_trailing_edge 300
    { debouncedValue := some "", pending := none, emitted := [] }
    [(0, some "r"), (100, some "re"), (250, some "rex")]
    (by decide) rfl
  refine ⟨h.1, ?_⟩
  exact (h.2.2.1 250 "rex" rfl 550 (by decide)).1

end DoggyDaycare
